import Mathlib

/-!
Verification of the per-key sliding-window rate limiter
(`SlidingWindowRateLimiter` in `task1.py`).

Timestamps are modelled as rationals (`ℚ`), the per-key history as a
function `String → Option (List ℚ)` (mirroring the Python dict: `none`
means the key is absent, `some dq` a present deque, oldest first).
Each public method of the class reads the clock itself, so every
embedded operation takes the value of that clock read as an explicit
`current_time` argument and returns the result paired with the updated
limiter state.
-/

/-- The limiter object: configuration (`window_size`, `max_requests`)
fixed by `__init__`, plus the mutable `user_history` dict. -/
structure SlidingWindowRateLimiter where
  window_size : ℚ
  max_requests : ℤ
  user_history : String → Option (List ℚ)

/-- `__init__`: stores the two configuration values verbatim and starts
with an empty history.  The Python constructor performs no validation
(its defaults are `window_size=10`, `max_requests=1`). -/
def mkLimiter (window_size : ℚ) (max_requests : ℤ) : SlidingWindowRateLimiter :=
  ⟨window_size, max_requests, fun _ => none⟩

/-- Point update of the history map (dict assignment / deletion). -/
def setKey (h : String → Option (List ℚ)) (u : String) (v : Option (List ℚ)) :
    String → Option (List ℚ) :=
  fun k => if k = u then v else h k

/-- The `while self.user_history[user_id] and self.user_history[user_id][0]
<= current_time - self.window_size: popleft()` loop of `_cleanup_window`:
repeatedly drop the head while it is stale. -/
def dropStale (window_size current_time : ℚ) : List ℚ → List ℚ
  | [] => []
  | t :: ts =>
    if t ≤ current_time - window_size then dropStale window_size current_time ts
    else t :: ts

/-- `_cleanup_window(user_id, current_time)`: no-op when the key is
absent; otherwise pop stale heads and delete the key if its deque
became empty. -/
def cleanup_window (s : SlidingWindowRateLimiter) (user_id : String) (current_time : ℚ) :
    SlidingWindowRateLimiter :=
  match s.user_history user_id with
  | none => s
  | some dq =>
    let dq' := dropStale s.window_size current_time dq
    if dq' = [] then
      ⟨s.window_size, s.max_requests, setKey s.user_history user_id none⟩
    else
      ⟨s.window_size, s.max_requests, setKey s.user_history user_id (some dq')⟩

/-- `can_send_message(user_id)`: reads the clock (`current_time`), runs
cleanup, then returns `len(self.user_history.get(user_id, [])) <
self.max_requests`, together with the post-cleanup state. -/
def can_send_message (s : SlidingWindowRateLimiter) (user_id : String) (current_time : ℚ) :
    Bool × SlidingWindowRateLimiter :=
  let s' := cleanup_window s user_id current_time
  (decide ((((s'.user_history user_id).getD []).length : ℤ) < s'.max_requests), s')

/-- `record_message(user_id)` as written in the source: it reads the
clock once itself (`t_record`, the value appended on success), then
calls `can_send_message`, which performs a SECOND clock read
(`t_check`, the value used for cleanup and the admission check).  The
two reads are distinct `time.time()` calls. -/
def record_message2 (s : SlidingWindowRateLimiter) (user_id : String)
    (t_record t_check : ℚ) : Bool × SlidingWindowRateLimiter :=
  let p := can_send_message s user_id t_check
  if p.1 then
    (true, ⟨p.2.window_size, p.2.max_requests,
      setKey p.2.user_history user_id
        (some (((p.2.user_history user_id).getD []) ++ [t_record]))⟩)
  else (false, p.2)

/-- `record_message` under the idealization that its two clock reads
return the same value `current_time` (the reads are microseconds apart
in practice; all per-call claims are phrased with a single effective
`now`). -/
def record_message (s : SlidingWindowRateLimiter) (user_id : String) (current_time : ℚ) :
    Bool × SlidingWindowRateLimiter :=
  record_message2 s user_id current_time current_time

/-- `time_until_next_allowed(user_id)`: reads the clock, runs cleanup,
returns `0.0` when the key is absent or below quota, else
`max(0.0, history[user_id][0] + window_size - current_time)`. -/
def time_until_next_allowed (s : SlidingWindowRateLimiter) (user_id : String)
    (current_time : ℚ) : ℚ × SlidingWindowRateLimiter :=
  let s' := cleanup_window s user_id current_time
  match s'.user_history user_id with
  | none => (0, s')
  | some dq =>
    if (dq.length : ℤ) < s'.max_requests then (0, s')
    else (max 0 (dq.headI + s'.window_size - current_time), s')

/-- States reachable from a freshly constructed limiter by public
operations invoked at non-decreasing clock times; the second component
is the time of the most recent call (any starting time is allowed). -/
inductive Reachable : SlidingWindowRateLimiter → ℚ → Prop
  | init (w : ℚ) (m : ℤ) (t : ℚ) : Reachable (mkLimiter w m) t
  | stepCanSend {s : SlidingWindowRateLimiter} {t t' : ℚ} (u : String) :
      Reachable s t → t ≤ t' → Reachable (can_send_message s u t').2 t'
  | stepRecord {s : SlidingWindowRateLimiter} {t t' : ℚ} (u : String) :
      Reachable s t → t ≤ t' → Reachable (record_message s u t').2 t'
  | stepWait {s : SlidingWindowRateLimiter} {t t' : ℚ} (u : String) :
      Reachable s t → t ≤ t' → Reachable (time_until_next_allowed s u t').2 t'

/-- The state invariant maintained by every reachable state at last-call
time `t`: each present key holds a non-empty, sorted deque of at most
`max_requests` timestamps, all of them `≤ t`. -/
def GoodState (s : SlidingWindowRateLimiter) (t : ℚ) : Prop :=
  ∀ u dq, s.user_history u = some dq →
    dq ≠ [] ∧ List.Sorted (· ≤ ·) dq ∧ (dq.length : ℤ) ≤ s.max_requests ∧
      ∀ x ∈ dq, x ≤ t

/-! ### Lemmas about `dropStale` -/

theorem dropStale_length_le (w c : ℚ) (l : List ℚ) :
    (dropStale w c l).length ≤ l.length := by
  induction l with
  | nil => simp [dropStale]
  | cons t ts ih =>
    by_cases h : t ≤ c - w
    · simp only [dropStale, if_pos h]
      exact Nat.le_succ_of_le ih
    · simp [dropStale, if_neg h]

theorem dropStale_eq_of_length (w c : ℚ) (l : List ℚ)
    (h : (dropStale w c l).length = l.length) : dropStale w c l = l := by
  cases l with
  | nil => rfl
  | cons t ts =>
    by_cases hs : t ≤ c - w
    · exfalso
      have hle := dropStale_length_le w c ts
      rw [dropStale, if_pos hs] at h
      simp only [List.length_cons] at h
      omega
    · rw [dropStale, if_neg hs]

theorem dropStale_mem {w c : ℚ} {l : List ℚ} {x : ℚ} (h : x ∈ dropStale w c l) :
    x ∈ l := by
  induction l with
  | nil => simp [dropStale] at h
  | cons t ts ih =>
    by_cases hs : t ≤ c - w
    · rw [dropStale, if_pos hs] at h
      exact List.mem_cons_of_mem t (ih h)
    · rwa [dropStale, if_neg hs] at h

theorem dropStale_head_fresh {w c : ℚ} {l : List ℚ} {x : ℚ} {xs : List ℚ}
    (h : dropStale w c l = x :: xs) : ¬ x ≤ c - w := by
  induction l with
  | nil => simp [dropStale] at h
  | cons t ts ih =>
    by_cases hs : t ≤ c - w
    · rw [dropStale, if_pos hs] at h
      exact ih h
    · rw [dropStale, if_neg hs] at h
      cases h
      exact hs

theorem dropStale_idem (w c : ℚ) (l : List ℚ) :
    dropStale w c (dropStale w c l) = dropStale w c l := by
  cases hd : dropStale w c l with
  | nil => rfl
  | cons x xs =>
    have hx := dropStale_head_fresh hd
    rw [dropStale, if_neg hx]

theorem dropStale_sorted {w c : ℚ} {l : List ℚ} (h : List.Sorted (· ≤ ·) l) :
    List.Sorted (· ≤ ·) (dropStale w c l) := by
  induction l with
  | nil => simp [dropStale]
  | cons t ts ih =>
    by_cases hs : t ≤ c - w
    · rw [dropStale, if_pos hs]
      exact ih (List.Sorted.of_cons h)
    · rwa [dropStale, if_neg hs]

/-- On a sorted deque, the popleft loop removes exactly the stale
entries: the result is the filter keeping the in-window timestamps. -/
theorem dropStale_eq_filter {w c : ℚ} {l : List ℚ} (h : List.Sorted (· ≤ ·) l) :
    dropStale w c l = l.filter (fun x => decide (c - w < x)) := by
  induction l with
  | nil => rfl
  | cons t ts ih =>
    by_cases hs : t ≤ c - w
    · rw [dropStale, if_pos hs, List.filter_cons]
      simp only [decide_eq_true_eq]
      rw [if_neg (by simpa using hs)]
      exact ih (List.Sorted.of_cons h)
    · rw [dropStale, if_neg hs, List.filter_cons]
      simp only [decide_eq_true_eq]
      rw [if_pos (lt_of_not_le hs)]
      congr 1
      have hall : ∀ x ∈ ts, ¬ x ≤ c - w := by
        intro x hx hxle
        exact hs (le_trans ((List.sorted_cons.mp h).1 x hx) hxle)
      rw [List.filter_eq_self.mpr]
      intro x hx
      simpa using lt_of_not_le (hall x hx)

/-! ### Lemmas about `setKey` and `cleanup_window` -/

theorem setKey_same (h : String → Option (List ℚ)) (u : String) (v : Option (List ℚ)) :
    setKey h u v u = v := by
  simp [setKey]

theorem setKey_other (h : String → Option (List ℚ)) {u k : String}
    (v : Option (List ℚ)) (hk : k ≠ u) : setKey h u v k = h k := by
  simp [setKey, hk]

theorem setKey_setKey (h : String → Option (List ℚ)) (u : String)
    (v v' : Option (List ℚ)) : setKey (setKey h u v) u v' = setKey h u v' := by
  funext k
  by_cases hk : k = u <;> simp [setKey, hk]

theorem setKey_eq_self {h : String → Option (List ℚ)} {u : String}
    {v : Option (List ℚ)} (hv : h u = v) : setKey h u v = h := by
  funext k
  by_cases hk : k = u <;> simp [setKey, hk, hv]

theorem cleanup_window_absent {s : SlidingWindowRateLimiter} {u : String} (c : ℚ)
    (hu : s.user_history u = none) : cleanup_window s u c = s := by
  rw [cleanup_window, hu]

theorem cleanup_window_present {s : SlidingWindowRateLimiter} {u : String} (c : ℚ)
    {dq : List ℚ} (hu : s.user_history u = some dq) :
    cleanup_window s u c =
      if dropStale s.window_size c dq = [] then
        ⟨s.window_size, s.max_requests, setKey s.user_history u none⟩
      else
        ⟨s.window_size, s.max_requests,
          setKey s.user_history u (some (dropStale s.window_size c dq))⟩ := by
  rw [cleanup_window, hu]

theorem cleanup_window_window_size (s : SlidingWindowRateLimiter) (u : String) (c : ℚ) :
    (cleanup_window s u c).window_size = s.window_size := by
  cases hu : s.user_history u with
  | none => rw [cleanup_window_absent c hu]
  | some dq =>
    rw [cleanup_window_present c hu]
    by_cases hd : dropStale s.window_size c dq = [] <;> simp [hd]

theorem cleanup_window_max_requests (s : SlidingWindowRateLimiter) (u : String) (c : ℚ) :
    (cleanup_window s u c).max_requests = s.max_requests := by
  cases hu : s.user_history u with
  | none => rw [cleanup_window_absent c hu]
  | some dq =>
    rw [cleanup_window_present c hu]
    by_cases hd : dropStale s.window_size c dq = [] <;> simp [hd]

/-- After cleanup, the cleaned key holds exactly the de-staled deque
(and is absent when that deque is empty). -/
theorem cleanup_window_self_present {s : SlidingWindowRateLimiter} {u : String} (c : ℚ)
    {dq : List ℚ} (hu : s.user_history u = some dq) :
    (cleanup_window s u c).user_history u =
      if dropStale s.window_size c dq = [] then none
      else some (dropStale s.window_size c dq) := by
  rw [cleanup_window_present c hu]
  by_cases hd : dropStale s.window_size c dq = [] <;> simp [hd, setKey_same]

theorem cleanup_window_other (s : SlidingWindowRateLimiter) {u k : String} (c : ℚ)
    (hk : k ≠ u) : (cleanup_window s u c).user_history k = s.user_history k := by
  cases hu : s.user_history u with
  | none => rw [cleanup_window_absent c hu]
  | some dq =>
    rw [cleanup_window_present c hu]
    by_cases hd : dropStale s.window_size c dq = [] <;>
      simp [hd, setKey_other _ _ hk]

/-- A key present after cleanup has a non-empty deque (this is what
makes the `history[user_id][0]` access of `time_until_next_allowed`
in-bounds). -/
theorem cleanup_window_nonempty {s : SlidingWindowRateLimiter} {u : String} {c : ℚ}
    {dq : List ℚ} (h : (cleanup_window s u c).user_history u = some dq) :
    dq ≠ [] := by
  cases hu : s.user_history u with
  | none =>
    rw [cleanup_window_absent c hu, hu] at h
    exact absurd h (by simp)
  | some dq0 =>
    rw [cleanup_window_self_present c hu] at h
    by_cases hd : dropStale s.window_size c dq0 = []
    · rw [if_pos hd] at h
      exact absurd h (by simp)
    · rw [if_neg hd] at h
      cases h
      exact hd

/-- Cleanup is idempotent at the same time, on every state. -/
theorem cleanup_window_idem (s : SlidingWindowRateLimiter) (u : String) (c : ℚ) :
    cleanup_window (cleanup_window s u c) u c = cleanup_window s u c := by
  cases hu : s.user_history u with
  | none =>
    have h1 : cleanup_window s u c = s := cleanup_window_absent c hu
    rw [h1, h1]
  | some dq =>
    by_cases hd : dropStale s.window_size c dq = []
    · have h1 : (cleanup_window s u c).user_history u = none := by
        rw [cleanup_window_self_present c hu, if_pos hd]
      exact cleanup_window_absent c h1
    · have h1 : (cleanup_window s u c).user_history u =
          some (dropStale s.window_size c dq) := by
        rw [cleanup_window_self_present c hu, if_neg hd]
      have h2 : cleanup_window s u c =
          ⟨s.window_size, s.max_requests,
            setKey s.user_history u (some (dropStale s.window_size c dq))⟩ := by
        rw [cleanup_window_present c hu, if_neg hd]
      rw [cleanup_window_present c h1, h2]
      simp only [cleanup_window_window_size, dropStale_idem, if_neg hd]
      simp only [setKey_setKey]

/-! ### Characterizations of the public operations -/

theorem can_send_message_snd (s : SlidingWindowRateLimiter) (u : String) (c : ℚ) :
    (can_send_message s u c).2 = cleanup_window s u c := rfl

theorem can_send_message_fst (s : SlidingWindowRateLimiter) (u : String) (c : ℚ) :
    (can_send_message s u c).1 =
      decide (((((cleanup_window s u c).user_history u).getD []).length : ℤ) <
        (cleanup_window s u c).max_requests) := rfl

theorem record_message2_of_true {s : SlidingWindowRateLimiter} {u : String}
    {tr tc : ℚ} (hb : (can_send_message s u tc).1 = true) :
    record_message2 s u tr tc =
      (true, ⟨(cleanup_window s u tc).window_size, (cleanup_window s u tc).max_requests,
        setKey (cleanup_window s u tc).user_history u
          (some ((((cleanup_window s u tc).user_history u).getD []) ++ [tr]))⟩) := by
  simp only [record_message2, can_send_message_snd, hb, if_true]

theorem record_message2_of_false {s : SlidingWindowRateLimiter} {u : String}
    {tr tc : ℚ} (hb : (can_send_message s u tc).1 = false) :
    record_message2 s u tr tc = (false, cleanup_window s u tc) := by
  simp only [record_message2, can_send_message_snd, hb, Bool.false_eq_true, if_false]

theorem time_until_next_allowed_snd (s : SlidingWindowRateLimiter) (u : String) (c : ℚ) :
    (time_until_next_allowed s u c).2 = cleanup_window s u c := by
  rw [time_until_next_allowed]
  cases h : (cleanup_window s u c).user_history u with
  | none => rfl
  | some dq =>
    by_cases hl : (dq.length : ℤ) < (cleanup_window s u c).max_requests <;> simp [hl]

/-! ### Preservation of the state invariant -/

theorem goodState_mono {s : SlidingWindowRateLimiter} {t t' : ℚ}
    (h : GoodState s t) (ht : t ≤ t') : GoodState s t' := by
  intro u dq hu
  obtain ⟨h1, h2, h3, h4⟩ := h u dq hu
  exact ⟨h1, h2, h3, fun x hx => le_trans (h4 x hx) ht⟩

theorem goodState_mkLimiter (w : ℚ) (m : ℤ) (t : ℚ) : GoodState (mkLimiter w m) t := by
  intro u dq hu
  simp [mkLimiter] at hu

theorem goodState_cleanup {s : SlidingWindowRateLimiter} {t : ℚ}
    (h : GoodState s t) (u : String) (c : ℚ) :
    GoodState (cleanup_window s u c) t := by
  intro k dq hk
  rw [cleanup_window_max_requests]
  by_cases hku : k = u
  · subst hku
    cases hu : s.user_history k with
    | none =>
      rw [cleanup_window_absent c hu, hu] at hk
      exact absurd hk (by simp)
    | some dq0 =>
      rw [cleanup_window_self_present c hu] at hk
      by_cases hd : dropStale s.window_size c dq0 = []
      · rw [if_pos hd] at hk
        exact absurd hk (by simp)
      · rw [if_neg hd] at hk
        cases hk
        obtain ⟨_, hsort, hlen, hmem⟩ := h k dq0 hu
        refine ⟨hd, dropStale_sorted hsort, ?_, fun x hx => hmem x (dropStale_mem hx)⟩
        calc ((dropStale s.window_size c dq0).length : ℤ)
            ≤ (dq0.length : ℤ) := by exact_mod_cast dropStale_length_le _ _ _
          _ ≤ s.max_requests := hlen
  · rw [cleanup_window_other s c hku] at hk
    exact h k dq hk

theorem goodState_record {s : SlidingWindowRateLimiter} {t : ℚ}
    (h : GoodState s t) (u : String) {c : ℚ} (hc : t ≤ c) :
    GoodState (record_message s u c).2 c := by
  have h1 : GoodState (cleanup_window s u c) c :=
    goodState_cleanup (goodState_mono h hc) u c
  cases hb : (can_send_message s u c).1 with
  | false =>
    rw [record_message, record_message2_of_false hb]
    exact h1
  | true =>
    rw [record_message, record_message2_of_true hb]
    have hlt : ((((cleanup_window s u c).user_history u).getD []).length : ℤ) <
        (cleanup_window s u c).max_requests := by
      have hf := can_send_message_fst s u c
      rw [hb] at hf
      exact of_decide_eq_true hf.symm
    have hsort_old :
        List.Sorted (· ≤ ·) (((cleanup_window s u c).user_history u).getD []) := by
      cases hcu : (cleanup_window s u c).user_history u with
      | none => simp
      | some dq0 => simpa using (h1 u dq0 hcu).2.1
    have hmem_old : ∀ x ∈ ((cleanup_window s u c).user_history u).getD [], x ≤ c := by
      cases hcu : (cleanup_window s u c).user_history u with
      | none => simp
      | some dq0 =>
        intro x hx
        exact (h1 u dq0 hcu).2.2.2 x (by simpa using hx)
    intro k dq hk
    dsimp only at hk ⊢
    by_cases hku : k = u
    · subst hku
      rw [setKey_same] at hk
      cases hk
      refine ⟨by simp, ?_, ?_, ?_⟩
      · refine List.pairwise_append.mpr ⟨hsort_old, List.sorted_singleton c, ?_⟩
        intro x hx y hy
        rw [List.mem_singleton] at hy
        subst hy
        exact hmem_old x hx
      · simp only [List.length_append, List.length_singleton]
        push_cast
        omega
      · intro x hx
        rcases List.mem_append.mp hx with hx | hx
        · exact hmem_old x hx
        · rw [List.mem_singleton] at hx
          exact hx.le
    · rw [setKey_other _ _ hku] at hk
      exact h1 k dq hk

theorem dropStale_eq_nil_of_stale {w c : ℚ} {l : List ℚ}
    (h : ∀ x ∈ l, x ≤ c - w) : dropStale w c l = [] := by
  induction l with
  | nil => rfl
  | cons t ts ih =>
    rw [dropStale, if_pos (h t (List.mem_cons_self t ts))]
    exact ih fun x hx => h x (List.mem_cons_of_mem t hx)

/-- When every recorded timestamp of a key has aged out, cleanup removes
the key from the history entirely. -/
theorem cleanup_window_all_stale {s : SlidingWindowRateLimiter} {u : String} {now : ℚ}
    (h : ∀ x ∈ (s.user_history u).getD [], x ≤ now - s.window_size) :
    (cleanup_window s u now).user_history u = none := by
  cases hu : s.user_history u with
  | none => rw [cleanup_window_absent now hu, hu]
  | some dq =>
    rw [cleanup_window_self_present now hu]
    refine if_pos (dropStale_eq_nil_of_stale ?_)
    rw [hu] at h
    simpa using h

theorem can_send_message_stable (s : SlidingWindowRateLimiter) (u : String) (t : ℚ) :
    can_send_message (can_send_message s u t).2 u t = can_send_message s u t := by
  simp only [can_send_message, can_send_message_snd, cleanup_window_idem]

/-- Every reachable state satisfies the invariant at its last-call time. -/
theorem reachable_goodState {s : SlidingWindowRateLimiter} {t : ℚ}
    (h : Reachable s t) : GoodState s t := by
  induction h with
  | init w m t => exact goodState_mkLimiter w m t
  | stepCanSend u hr ht ih =>
    rw [can_send_message_snd]
    exact goodState_cleanup (goodState_mono ih ht) u _
  | stepRecord u hr ht ih => exact goodState_record ih u ht
  | stepWait u hr ht ih =>
    rw [time_until_next_allowed_snd]
    exact goodState_cleanup (goodState_mono ih ht) u _

theorem record_message_fst (s : SlidingWindowRateLimiter) (u : String) (now : ℚ) :
    (record_message s u now).1 = (can_send_message s u now).1 := by
  cases hb : (can_send_message s u now).1 with
  | true => rw [record_message, record_message2_of_true hb]
  | false => rw [record_message, record_message2_of_false hb]

theorem time_until_next_allowed_fst_absent {s : SlidingWindowRateLimiter}
    {u : String} {now : ℚ} (h : (cleanup_window s u now).user_history u = none) :
    (time_until_next_allowed s u now).1 = 0 := by
  simp [time_until_next_allowed, h]

theorem time_until_next_allowed_fst_present {s : SlidingWindowRateLimiter}
    {u : String} {now : ℚ} {dq : List ℚ}
    (h : (cleanup_window s u now).user_history u = some dq) :
    (time_until_next_allowed s u now).1 =
      if (dq.length : ℤ) < s.max_requests then 0
      else max 0 (dq.headI + s.window_size - now) := by
  by_cases hl : (dq.length : ℤ) < s.max_requests
  · simp [time_until_next_allowed, h, cleanup_window_max_requests, hl]
  · simp [time_until_next_allowed, h, cleanup_window_max_requests,
      cleanup_window_window_size, hl]

/-! ### Claim theorems -/

/-- C1: the claim says `record_message` computes `now` exactly once and
uses that single snapshot for cleanup, the admission check and the
appended timestamp.  The code instead performs two distinct
`time.time()` reads (one in `record_message`, a second inside the
`can_send_message` it calls); this theorem evaluates the faithful
two-read embedding at the failing input `window_size=10`,
`max_requests=1`, `history["u"]=[0]`, first read `9.5`, second read
`10`: the admission check is evaluated against the second read (which
purges the old entry and admits), while the stored timestamp is the
first read `9.5` — a time at which the check itself would have denied.

-/
theorem C1_two_clock_reads :
    (record_message2 ⟨10, 1, fun k => if k = "u" then some [0] else none⟩
        "u" (19/2) 10).1 = true ∧
    (record_message2 ⟨10, 1, fun k => if k = "u" then some [0] else none⟩
        "u" (19/2) 10).2.user_history "u" = some [19/2] ∧
    (can_send_message ⟨10, 1, fun k => if k = "u" then some [0] else none⟩
        "u" (19/2)).1 = false := by
  norm_num [record_message2, can_send_message, cleanup_window, dropStale, setKey]

/-- C2 (counterexample): the claim says a limiter is never successfully
constructed from a non-positive `windowSize` or `maxRequests`.  The
`__init__` of the source performs no validation: constructing with
`window_size = -1` and `max_requests = 0` succeeds and stores both
values verbatim. -/
theorem C2_counterexample :
    (mkLimiter (-1) 0).window_size = -1 ∧ (mkLimiter (-1) 0).window_size ≤ 0 ∧
    (mkLimiter (-1) 0).max_requests = 0 ∧ (mkLimiter (-1) 0).max_requests ≤ 0 := by
  norm_num [mkLimiter]

/-- C2 (amended): the constructor never fails and never clamps: for
every `window_size` and `max_requests` — non-positive values included —
it builds a limiter holding exactly those values and an empty
history. -/
theorem C2_constructor_accepts_everything (w : ℚ) (m : ℤ) :
    (mkLimiter w m).window_size = w ∧ (mkLimiter w m).max_requests = m ∧
    ∀ u, (mkLimiter w m).user_history u = none := by
  refine ⟨rfl, rfl, fun u => rfl⟩

/-- C6: on a sorted deque (every deque the limiter ever stores is
sorted), the popleft loop of `_cleanup_window` removes exactly the
timestamps `t ≤ now - window_size` — the key afterwards holds the
filter keeping the strictly-in-window entries, or is deleted when none
remain — and cleanup at the same `now` is idempotent on every state. -/
theorem C6_cleanup_exact_and_idempotent (s : SlidingWindowRateLimiter)
    (u : String) (now : ℚ) :
    (∀ dq, s.user_history u = some dq → List.Sorted (· ≤ ·) dq →
      (cleanup_window s u now).user_history u =
        (if dq.filter (fun x => decide (now - s.window_size < x)) = [] then none
         else some (dq.filter (fun x => decide (now - s.window_size < x))))) ∧
    cleanup_window (cleanup_window s u now) u now = cleanup_window s u now := by
  constructor
  · intro dq hu hsort
    rw [cleanup_window_self_present now hu, dropStale_eq_filter hsort]
  · exact cleanup_window_idem s u now

/-- C6 (witness): with `window_size=10`, `max_requests=2` and
`history["u"]=[0,5]`, cleanup at `now=10` removes exactly the aged-out
`0` and keeps `5`, and is idempotent. -/
theorem C6_witness :
    (cleanup_window ⟨10, 2, fun k => if k = "u" then some [0, 5] else none⟩
        "u" 10).user_history "u" = some [5] ∧
    cleanup_window (cleanup_window ⟨10, 2, fun k => if k = "u" then some [0, 5] else none⟩
        "u" 10) "u" 10 =
      cleanup_window ⟨10, 2, fun k => if k = "u" then some [0, 5] else none⟩ "u" 10 := by
  have h := C6_cleanup_exact_and_idempotent
    ⟨10, 2, fun k => if k = "u" then some [0, 5] else none⟩ "u" 10
  refine ⟨?_, h.2⟩
  rw [h.1 [0, 5] rfl (by norm_num [List.sorted_cons])]
  norm_num [List.filter]

/-- C7: `time_until_next_allowed` returns `0` when, after cleanup at the
call's `now`, the key is absent or its remaining count is strictly
below `max_requests`; otherwise it returns
`max 0 (oldest + window_size - now)` where `oldest` is the first entry
of the key's deque; and the returned value is never negative. -/
theorem C7_wait_time (s : SlidingWindowRateLimiter) (u : String) (now : ℚ) :
    (((cleanup_window s u now).user_history u = none ∨
        (∃ dq, (cleanup_window s u now).user_history u = some dq ∧
          (dq.length : ℤ) < s.max_requests)) →
      (time_until_next_allowed s u now).1 = 0) ∧
    (∀ dq, (cleanup_window s u now).user_history u = some dq →
      ¬ (dq.length : ℤ) < s.max_requests →
      (time_until_next_allowed s u now).1 =
        max 0 (dq.headI + s.window_size - now)) ∧
    0 ≤ (time_until_next_allowed s u now).1 := by
  refine ⟨?_, ?_, ?_⟩
  · rintro (h | ⟨dq, h, hl⟩)
    · exact time_until_next_allowed_fst_absent h
    · rw [time_until_next_allowed_fst_present h, if_pos hl]
  · intro dq h hl
    rw [time_until_next_allowed_fst_present h, if_neg hl]
  · cases hcu : (cleanup_window s u now).user_history u with
    | none => rw [time_until_next_allowed_fst_absent hcu]
    | some dq =>
      rw [time_until_next_allowed_fst_present hcu]
      by_cases hl : (dq.length : ℤ) < s.max_requests
      · rw [if_pos hl]
      · rw [if_neg hl]
        exact le_max_left 0 _

/-- C7 (witness): with `window_size=10`, `max_requests=1` and
`history["u"]=[0]`, the wait time at `now=5` is
`max 0 (0 + 10 - 5)` (that is, `5`). -/
theorem C7_witness :
    (time_until_next_allowed ⟨10, 1, fun k => if k = "u" then some [0] else none⟩
        "u" 5).1 = max 0 (0 + 10 - 5) := by
  have h := (C7_wait_time ⟨10, 1, fun k => if k = "u" then some [0] else none⟩
      "u" 5).2.1 [0] (by norm_num [cleanup_window, dropStale, setKey]) (by decide)
  simpa using h

/-- C4: check/record consistency with a single effective `now = t`.
If `can_send_message` answers `true` at time `t`, a `record_message`
call on the resulting state at the same time `t` returns `true`; if it
answers `false`, the `record_message` call returns `false` and leaves
the state exactly as it was after the check (cleanup at the same `now`
is idempotent, so the failed record mutates nothing). -/
theorem C4_check_record_consistency (s : SlidingWindowRateLimiter) (u : String) (t : ℚ) :
    ((can_send_message s u t).1 = true →
      (record_message (can_send_message s u t).2 u t).1 = true) ∧
    ((can_send_message s u t).1 = false →
      record_message (can_send_message s u t).2 u t =
        (false, (can_send_message s u t).2)) := by
  constructor
  · intro h
    have hb : (can_send_message (can_send_message s u t).2 u t).1 = true := by
      rw [can_send_message_stable]
      exact h
    rw [record_message, record_message2_of_true hb]
  · intro h
    have hb : (can_send_message (can_send_message s u t).2 u t).1 = false := by
      rw [can_send_message_stable]
      exact h
    rw [record_message, record_message2_of_false hb, can_send_message_snd,
      cleanup_window_idem, ← can_send_message_snd]

/-- C4 (witness): on a fresh limiter (`window_size=10`,
`max_requests=1`), `can_send_message "u"` at `t=0` answers `true`, and
the subsequent `record_message "u"` at the same `t=0` returns `true`. -/
theorem C4_witness :
    (record_message (can_send_message (mkLimiter 10 1) "u" 0).2 "u" 0).1 = true := by
  refine (C4_check_record_consistency (mkLimiter 10 1) "u" 0).1 ?_
  norm_num [can_send_message, cleanup_window, mkLimiter]

/-- C3 (counterexample): the claim quantifies over *every* starting
state.  On the (unreachable) state `window_size=10`, `max_requests=1`,
`history["u"]=[0,5]`, `record_message "u"` at `now=10` returns `false`
yet mutates the state: the internal cleanup prunes the aged-out `0`,
leaving `history["u"]=[5]`. -/
theorem C3_counterexample :
    (record_message ⟨10, 1, fun k => if k = "u" then some [0, 5] else none⟩
        "u" 10).1 = false ∧
    (record_message ⟨10, 1, fun k => if k = "u" then some [0, 5] else none⟩
        "u" 10).2.user_history "u" ≠
      (⟨10, 1, fun k => if k = "u" then some [0, 5] else none⟩ :
        SlidingWindowRateLimiter).user_history "u" := by
  norm_num [record_message, record_message2, can_send_message, cleanup_window,
    dropStale, setKey]

/-- C3 (amended): restricted to reachable states (any sequence of
public operations at non-decreasing times) the claim holds: whenever
`record_message` returns `false` the entire history state after the
call equals the state before it — no pruning happens either, because a
reachable deque holds at most `max_requests` entries, so a denied
request implies nothing was stale — and whenever it returns `true`,
the call's `now` has been appended to the key's deque. -/
theorem C3_record_result_contract {s : SlidingWindowRateLimiter} {t : ℚ}
    (hs : Reachable s t) (u : String) {now : ℚ} (_ht : t ≤ now) :
    ((record_message s u now).1 = false → (record_message s u now).2 = s) ∧
    ((record_message s u now).1 = true →
      ∃ l, (record_message s u now).2.user_history u = some (l ++ [now])) := by
  constructor
  · intro hf
    rw [record_message_fst] at hf
    rw [record_message, record_message2_of_false hf]
    cases hu : s.user_history u with
    | none => exact cleanup_window_absent now hu
    | some dq =>
      obtain ⟨hne, _, hlen, _⟩ := reachable_goodState hs u dq hu
      have hcap := can_send_message_fst s u now
      rw [hf, cleanup_window_max_requests] at hcap
      have hcap' := of_decide_eq_false hcap.symm
      by_cases hd : dropStale s.window_size now dq = []
      · exfalso
        rw [cleanup_window_self_present now hu, if_pos hd] at hcap'
        simp only [Option.getD_none, List.length_nil, Nat.cast_zero, not_lt] at hcap'
        have : dq.length = 0 := by omega
        exact hne (List.eq_nil_of_length_eq_zero this)
      · rw [cleanup_window_self_present now hu, if_neg hd] at hcap'
        simp only [Option.getD_some, not_lt] at hcap'
        have hle : (dropStale s.window_size now dq).length ≤ dq.length :=
          dropStale_length_le _ _ _
        have hlen' : (dropStale s.window_size now dq).length = dq.length := by
          have h1 : ((dropStale s.window_size now dq).length : ℤ) ≥ s.max_requests :=
            hcap'
          omega
        have heq := dropStale_eq_of_length s.window_size now dq hlen'
        rw [cleanup_window_present now hu, if_neg hd, heq, setKey_eq_self hu]
  · intro htr
    rw [record_message_fst] at htr
    rw [record_message, record_message2_of_true htr]
    exact ⟨((cleanup_window s u now).user_history u).getD [], by
      dsimp only
      rw [setKey_same]⟩

/-- C3 (witness): the reachable state obtained by `record_message "u"`
at `t=0` on a fresh limiter; the denied `record_message "u"` at `now=5`
leaves that state exactly unchanged. -/
theorem C3_witness :
    (record_message (record_message (mkLimiter 10 1) "u" 0).2 "u" 5).2 =
      (record_message (mkLimiter 10 1) "u" 0).2 := by
  have hr : Reachable (record_message (mkLimiter 10 1) "u" 0).2 0 :=
    Reachable.stepRecord "u" (Reachable.init 10 1 0) le_rfl
  refine (C3_record_result_contract hr "u" (by norm_num)).1 ?_
  norm_num [record_message, record_message2, can_send_message, cleanup_window,
    dropStale, setKey, mkLimiter]

/-- C5: in every reachable state of a limiter with positive
`max_requests`, for every key the number of stored timestamps still
within the trailing window (at any probe time `now`) is at most
`max_requests`; and `record_message` refuses admission whenever the
post-cleanup deque is at capacity. -/
theorem C5_quota_bound {s : SlidingWindowRateLimiter} {t : ℚ}
    (hs : Reachable s t) (hm : 0 < s.max_requests) :
    (∀ (u : String) (now : ℚ),
      ((((s.user_history u).getD []).filter
          (fun x => decide (now - s.window_size < x))).length : ℤ) ≤
        s.max_requests) ∧
    (∀ (u : String) (now : ℚ),
      ¬ ((((cleanup_window s u now).user_history u).getD []).length : ℤ) <
          s.max_requests →
      (record_message s u now).1 = false) := by
  constructor
  · intro u now
    cases hu : s.user_history u with
    | none => simpa using hm.le
    | some dq =>
      obtain ⟨_, _, hlen, _⟩ := reachable_goodState hs u dq hu
      calc ((dq.filter (fun x => decide (now - s.window_size < x))).length : ℤ)
          ≤ (dq.length : ℤ) := by exact_mod_cast List.length_filter_le _ _
        _ ≤ s.max_requests := hlen
  · intro u now hcap
    rw [record_message_fst]
    have hf := can_send_message_fst s u now
    rw [cleanup_window_max_requests] at hf
    rw [hf]
    exact decide_eq_false hcap

/-- C5 (witness): the reachable state after one admitted request at
`t=0` on a fresh limiter (`window_size=10`, `max_requests=1`): probing
with `now=3` counts at most `1` in-window timestamp for `"u"`. -/
theorem C5_witness :
    (((((record_message (mkLimiter 10 1) "u" 0).2.user_history "u").getD []).filter
        (fun x => decide (3 - (record_message (mkLimiter 10 1) "u" 0).2.window_size < x))).length : ℤ) ≤
      (record_message (mkLimiter 10 1) "u" 0).2.max_requests := by
  have hr : Reachable (record_message (mkLimiter 10 1) "u" 0).2 0 :=
    Reachable.stepRecord "u" (Reachable.init 10 1 0) le_rfl
  refine (C5_quota_bound hr ?_).1 "u" 3
  norm_num [record_message, record_message2, can_send_message, cleanup_window,
    setKey, mkLimiter]

/-- C9 (counterexample): the claim says that when all of a key's
recorded timestamps are aged out, *any* operation on that key leaves it
absent from storage.  `record_message` is a counterexample: with
`window_size=10`, `max_requests=1`, `history["u"]=[0]`, all timestamps
are stale at `now=10`, yet `record_message "u"` at `now=10` admits and
re-creates the key with the fresh timestamp `[10]` — the key is
present, not absent. -/
theorem C9_counterexample :
    (∀ x ∈ ((⟨10, 1, fun k => if k = "u" then some [0] else none⟩ :
        SlidingWindowRateLimiter).user_history "u").getD [],
      x ≤ 10 - (⟨10, 1, fun k => if k = "u" then some [0] else none⟩ :
        SlidingWindowRateLimiter).window_size) ∧
    (record_message ⟨10, 1, fun k => if k = "u" then some [0] else none⟩
        "u" 10).2.user_history "u" = some [10] := by
  norm_num [record_message, record_message2, can_send_message, cleanup_window,
    dropStale, setKey]

/-- C9 (amended): no reachable state maps a key to an empty deque; and
when every recorded timestamp of a key satisfies
`x ≤ now - window_size`, the read operations (`can_send_message`,
`time_until_next_allowed`) at `now` leave the key absent, and so does a
`record_message` that returns `false`; a `record_message` that returns
`true` instead re-creates the key holding exactly the new timestamp
`[now]`. -/
theorem C9_garbage_collection :
    (∀ (s : SlidingWindowRateLimiter) (t : ℚ), Reachable s t →
      ∀ (u : String) (dq : List ℚ), s.user_history u = some dq → dq ≠ []) ∧
    (∀ (s : SlidingWindowRateLimiter) (u : String) (now : ℚ),
      (∀ x ∈ (s.user_history u).getD [], x ≤ now - s.window_size) →
      (can_send_message s u now).2.user_history u = none ∧
      (time_until_next_allowed s u now).2.user_history u = none ∧
      ((record_message s u now).1 = false →
        (record_message s u now).2.user_history u = none) ∧
      ((record_message s u now).1 = true →
        (record_message s u now).2.user_history u = some [now])) := by
  constructor
  · intro s t hr u dq hu
    exact (reachable_goodState hr u dq hu).1
  · intro s u now hstale
    have hc := cleanup_window_all_stale hstale
    refine ⟨?_, ?_, ?_, ?_⟩
    · rw [can_send_message_snd]
      exact hc
    · rw [time_until_next_allowed_snd]
      exact hc
    · intro hf
      rw [record_message_fst] at hf
      rw [record_message, record_message2_of_false hf]
      exact hc
    · intro htr
      rw [record_message_fst] at htr
      rw [record_message, record_message2_of_true htr]
      dsimp only
      rw [setKey_same, hc]
      simp

/-- C9 (witness): with `window_size=10`, `max_requests=1`,
`history["u"]=[0]`, all of `"u"`'s timestamps are stale at `now=10`,
and `can_send_message "u"` at `now=10` deletes the key. -/
theorem C9_witness :
    (can_send_message ⟨10, 1, fun k => if k = "u" then some [0] else none⟩
        "u" 10).2.user_history "u" = none := by
  refine (C9_garbage_collection.2
    ⟨10, 1, fun k => if k = "u" then some [0] else none⟩ "u" 10 ?_).1
  norm_num

/-- C10: the `history[user_id][0]` access in `time_until_next_allowed`
is always in bounds: after the cleanup the operation itself performs, a
key that is still present holds a non-empty deque (on every state, not
just reachable ones, because cleanup deletes a key whose deque empties),
and in every reachable state every present key's deque is non-empty. -/
theorem C10_oldest_access_in_bounds :
    (∀ (s : SlidingWindowRateLimiter) (u : String) (now : ℚ) (dq : List ℚ),
      (cleanup_window s u now).user_history u = some dq → 0 < dq.length) ∧
    (∀ (s : SlidingWindowRateLimiter) (t : ℚ), Reachable s t →
      ∀ (u : String) (dq : List ℚ), s.user_history u = some dq → 0 < dq.length) := by
  constructor
  · intro s u now dq h
    exact List.length_pos.mpr (cleanup_window_nonempty h)
  · intro s t hr u dq hu
    exact List.length_pos.mpr (reachable_goodState hr u dq hu).1

/-- C10 (witness): cleanup of `history["u"]=[0,5]` at `now=10` under a
`10`-second window leaves the non-empty deque `[5]`, whose first
element is in bounds. -/
theorem C10_witness : 0 < [(5 : ℚ)].length := by
  refine C10_oldest_access_in_bounds.1
    ⟨10, 2, fun k => if k = "u" then some [0, 5] else none⟩ "u" 10 [5] ?_
  norm_num [cleanup_window, dropStale, setKey]

/-- C8: Scenario A with `window_size=10`, `max_requests=1`:
`record "u"` at `t=0` returns `true`; `record "u"` at `t=5` returns
`false` and `time_until_next_allowed "u"` at `t=5` returns exactly `5`;
`record "u"` at `t=10` returns `true`, the boundary entry `0` having
been purged (since `0 ≤ 10 - 10`), leaving `history["u"]=[10]`. -/
theorem C8_scenarioA :
    (record_message (mkLimiter 10 1) "u" 0).1 = true ∧
    (record_message (record_message (mkLimiter 10 1) "u" 0).2 "u" 5).1 = false ∧
    (time_until_next_allowed
        (record_message (record_message (mkLimiter 10 1) "u" 0).2 "u" 5).2
        "u" 5).1 = 5 ∧
    (record_message (time_until_next_allowed
        (record_message (record_message (mkLimiter 10 1) "u" 0).2 "u" 5).2
        "u" 5).2 "u" 10).1 = true ∧
    (record_message (time_until_next_allowed
        (record_message (record_message (mkLimiter 10 1) "u" 0).2 "u" 5).2
        "u" 5).2 "u" 10).2.user_history "u" = some [10] := by
  norm_num [record_message, record_message2, can_send_message, cleanup_window,
    dropStale, setKey, mkLimiter, time_until_next_allowed]
